import Mathlib

/-!
Verification development for the redeem-rs repository.

The definitions below are a shallow embedding of the two core source
components:

* `src/flow_matrix.rs` — the pure flow-matrix builder (`create_flow_matrix`
  and its helpers `pack_coordinates` and `transform_to_flow_vertices`);
* `src/circles.rs` — the response-handling logic of `find_path`.

Modelling conventions:

* Rust machine integers (`u8`, `u16`, `usize`) are modelled as `Nat`,
  with `% 2 ^ 16` (resp. `% 2 ^ 8`) inserted exactly where the source
  performs an `as u16` / `as u8` cast.
* `alloy::primitives::U256` values are modelled as `Nat` together with an
  explicit `< 2 ^ 256` bound enforced by the parsing functions
  (`U256::from_str_radix` fails on overflow); `U256` addition is 256-bit
  arithmetic, so the terminal-amount sum is reduced `% 2 ^ 256`.
* Fallible Rust code returns `Option`; a Rust panic (an `unwrap`, an
  out-of-bounds index, or a `usize` underflow) is modelled by the
  `Outcome.panicked` constructor of the top-level result type.
* `HashSet` / `HashMap` are modelled as association lists.  The source
  iterates a `HashSet` in an unspecified order before sorting; the model
  fixes first-insertion order.  This choice is observable only in the
  relative order of distinct vertex strings whose numeric values are
  equal, where the real program's order is itself unspecified.
* Rust `str::to_lowercase` is modelled by ASCII lowercasing, which
  coincides with it on all ASCII strings (hex addresses in particular).
* Rust field names `from` and `to` are Lean keywords and are rendered as
  `fromAddr` and `toAddr`.
-/

namespace RedeemRs

/-- ASCII lowercasing of one character, the restriction of Rust's
`char::to_lowercase` to ASCII. -/
def lowerChar (c : Char) : Char :=
  if 65 ≤ c.toNat ∧ c.toNat ≤ 90 then Char.ofNat (c.toNat + 32) else c

/-- Models `str::to_lowercase` (on ASCII strings). -/
def lowerStr (s : String) : String :=
  ⟨s.data.map lowerChar⟩

/-- Value of one digit character under the given radix, as in
`U256::from_str_radix` digit handling: `none` on an invalid digit. -/
def digitVal? (radix : Nat) (c : Char) : Option Nat :=
  let v : Option Nat :=
    if 48 ≤ c.toNat ∧ c.toNat ≤ 57 then some (c.toNat - 48)
    else if 97 ≤ c.toNat ∧ c.toNat ≤ 122 then some (c.toNat - 87)
    else if 65 ≤ c.toNat ∧ c.toNat ≤ 90 then some (c.toNat - 55)
    else none
  match v with
  | some d => if d < radix then some d else none
  | none => none

/-- Accumulating digit parse over a character list; `'_'` separator
characters are skipped, as ruint's `from_str_radix` does for any radix
up to 36 (both call sites use radix 10 or 16). -/
def parseDigits (radix : Nat) (l : List Char) : Option Nat :=
  l.foldl
    (fun acc c =>
      match acc with
      | some n =>
        if c = '_' then some n
        else
          match digitVal? radix c with
          | some d => some (radix * n + d)
          | none => none
      | none => none)
    (some 0)

/-- Models `U256::from_str_radix(s, radix)`: every non-separator
character must be a digit of the radix and the value must fit in 256
bits (`from_str_radix` reports overflow as an error).  The empty string
parses to 0 — ruint folds from zero with no emptiness check — and `'_'`
separators are skipped. -/
def u256FromStrRadix? (s : String) (radix : Nat) : Option Nat :=
  match parseDigits radix s.data with
  | some n => if n < 2 ^ 256 then some n else none
  | none => none

/-- Models `str::trim_start_matches("0x")`, which removes *all* leading
occurrences of the pattern. -/
def trim0x : List Char → List Char
  | '0' :: 'x' :: rest => trim0x rest
  | l => l

/-- Numeric value of an address string as computed inside the sort
comparator of `transform_to_flow_vertices`:
`U256::from_str_radix(a.trim_start_matches("0x"), 16)`. -/
def addrVal? (a : String) : Option Nat :=
  u256FromStrRadix? ⟨trim0x a.data⟩ 16

/-- The (total) numeric key used once all comparator parses are known to
succeed. -/
def addrVal (a : String) : Nat :=
  (addrVal? a).getD 0

/-- Mirrors `TransferStep` of `src/flow_matrix.rs` (fields `from` / `to`
renamed, see the header note). -/
structure TransferStep where
  fromAddr : String
  toAddr : String
  tokenOwner : String
  value : String
deriving DecidableEq, Repr

/-- Mirrors `FlowEdge` of `src/flow_matrix.rs` (`stream_sink_id : u16`). -/
structure FlowEdge where
  streamSinkId : Nat
  amount : String
deriving DecidableEq, Repr

/-- Mirrors `Stream` of `src/flow_matrix.rs` (`source_coordinate : u16`,
`flow_edge_ids : Vec<u16>`, `data : Vec<u8>`). -/
structure Stream where
  sourceCoordinate : Nat
  flowEdgeIds : List Nat
  data : List Nat
deriving DecidableEq, Repr

/-- Mirrors `FlowMatrix` of `src/flow_matrix.rs`. -/
structure FlowMatrix where
  flowVertices : List String
  flowEdges : List FlowEdge
  streams : List Stream
  packedCoordinates : String
  sourceCoordinate : Nat
deriving DecidableEq, Repr

/-- Result type of the embedded `create_flow_matrix`: `ok` for
`Ok(FlowMatrix)`, `error` for `Err(...)` (the source builds its errors as
strings), and `panicked` for a Rust panic. -/
inductive Outcome (α : Type) where
  | ok (a : α)
  | error (msg : String)
  | panicked
deriving DecidableEq, Repr

/-- One lowercase hex digit, as produced by `alloy::hex::encode`. -/
def hexChar (n : Nat) : Char :=
  if n < 10 then Char.ofNat (48 + n) else Char.ofNat (87 + n)

/-- Two lowercase hex digits of one byte. -/
def byteHex (b : Nat) : List Char :=
  [hexChar (b / 16 % 16), hexChar (b % 16)]

/-- The two big-endian bytes pushed per coordinate by `pack_coordinates`:
`(c >> 8) as u8` and `(c & 0xff) as u8`. -/
def coordBytes (c : Nat) : List Nat :=
  [c / 2 ^ 8 % 2 ^ 8, c % 2 ^ 8]

/-- Mirrors `pack_coordinates` of `src/flow_matrix.rs`: big-endian bytes
of each 16-bit coordinate, hex-encoded in lowercase behind a `0x`
prefix. -/
def packCoordinates (coords : List Nat) : String :=
  ⟨'0' :: 'x' :: ((coords.flatMap coordBytes).flatMap byteHex)⟩

/-- One `HashSet::insert`, modelled on an insertion-ordered duplicate-free
list. -/
def insertVertex (l : List String) (a : String) : List String :=
  if a ∈ l then l else l ++ [a]

/-- Insertion sequence of `transform_to_flow_vertices` lines 52-60: the
(lowercased) `from` and `to` arguments, then for every transfer its
lowercased `from`, `to` and `token_owner`, in that order. -/
def vertexKeys (sender receiver : String) (ts : List TransferStep) : List String :=
  [lowerStr sender, lowerStr receiver] ++
    ts.flatMap (fun t => [lowerStr t.fromAddr, lowerStr t.toAddr, lowerStr t.tokenOwner])

/-- Contents of the `HashSet` after all inserts, in first-insertion
order. -/
def distinctVertices (sender receiver : String) (ts : List TransferStep) : List String :=
  (vertexKeys sender receiver ts).foldl insertVertex []

/-- The ordering corresponding to `lhs.cmp(&rhs)` on the parsed numeric
values. -/
def addrLe (a b : String) : Prop :=
  addrVal a ≤ addrVal b

instance : DecidableRel addrLe :=
  fun a b => Nat.decLe (addrVal a) (addrVal b)

instance : IsTotal String addrLe :=
  ⟨fun a b => Nat.le_total (addrVal a) (addrVal b)⟩

instance : IsTrans String addrLe :=
  ⟨fun _ _ _ => Nat.le_trans⟩

/-- Models `sorted.sort_by(...)` with the comparator of lines 63-67, whose
`unwrap` panics on an unparseable address.  A comparison sort invokes the
comparator on every element when the list has at least two elements, so
the sort panics (`none`) exactly when the list has length ≥ 2 and some
element fails to parse.  Rust's `sort_by` is a stable sort; it is modelled
by the stable `insertionSort` (the two can differ only in the relative
order of distinct strings with equal numeric values, the case in which the
real program's order is already unspecified through the `HashSet`
iteration order). -/
def sortVertices (l : List String) : Option (List String) :=
  if l.length ≤ 1 then some l
  else if l.all (fun a => (addrVal? a).isSome) then some (l.insertionSort addrLe)
  else none

/-- Models the `idx` HashMap built on lines 69-72: each address of the
sorted list is mapped to its position cast `as u16`, i.e. reduced
`% 2 ^ 16`. -/
def mkIdx (sorted : List String) : List (String × Nat) :=
  sorted.enum.map (fun p => (p.2, p.1 % 2 ^ 16))

/-- `HashMap` lookup; the source's `idx[&key]` panics when the key is
absent, which callers translate to `Outcome.panicked`. -/
def idxLookup (idx : List (String × Nat)) (a : String) : Option Nat :=
  (idx.find? (fun p => p.1 == a)).map (fun p => p.2)

/-- Mirrors `transform_to_flow_vertices` of `src/flow_matrix.rs`;
`none` models the comparator panic. -/
def transformToFlowVertices (ts : List TransferStep) (sender receiver : String) :
    Option (List String × List (String × Nat)) :=
  (sortVertices (distinctVertices sender receiver ts)).map (fun sorted => (sorted, mkIdx sorted))

/-- The edge list built on lines 89-98: one edge per transfer, in order,
terminal iff the transfer's lowercased `to` equals the receiver. -/
def initialEdges (receiver : String) (ts : List TransferStep) : List FlowEdge :=
  ts.map (fun t => ⟨if lowerStr t.toAddr == receiver then 1 else 0, t.value⟩)

/-- Mirrors `Iterator::rposition`: index of the last element equal to
`r`. -/
def rpos (l : List String) (r : String) : Option Nat :=
  ((l.enum.filter (fun q => q.2 == r)).map (fun q => q.1)).getLast?

/-- Sets `stream_sink_id = 1` on the edge at position `i` (line 108). -/
def promoteEdge (edges : List FlowEdge) (i : Nat) : List FlowEdge :=
  edges.enum.map (fun q => if q.1 = i then ⟨1, q.2.amount⟩ else q.2)

/-- Mirrors the "ensure at least one terminal edge" block, lines 100-109.
When no edge is terminal and `rposition` finds nothing, the source
evaluates `flow_edges.len() - 1`; on an empty list this underflows (and
the subsequent indexing is out of bounds), a panic, modelled by
`none`. -/
def ensureTerminal (receiver : String) (ts : List TransferStep) (edges : List FlowEdge) :
    Option (List FlowEdge) :=
  if edges.any (fun e => e.streamSinkId == 1) then some edges
  else
    match rpos (ts.map (fun t => lowerStr t.toAddr)) receiver with
    | some i => some (promoteEdge edges i)
    | none =>
      if edges.length = 0 then none
      else some (promoteEdge edges (edges.length - 1))

/-- The final edge list of `create_flow_matrix` as a function of the
lowercased receiver and the transfers. -/
def flowEdgesStage (receiver : String) (ts : List TransferStep) : Option (List FlowEdge) :=
  ensureTerminal receiver ts (initialEdges receiver ts)

/-- The `term_edge_ids` of lines 111-121: positions of terminal edges,
each cast `as u16`. -/
def termEdgeIds (edges : List FlowEdge) : List Nat :=
  edges.enum.filterMap (fun q => if q.2.streamSinkId == 1 then some (q.1 % 2 ^ 16) else none)

/-- The coordinate list of lines 129-134: for every transfer, in order,
the indices of its lowercased `token_owner`, `from` and `to`; a missing
key would be an indexing panic (`none`). -/
def coordsOf (idx : List (String × Nat)) : List TransferStep → Option (List Nat)
  | [] => some []
  | t :: ts =>
    match idxLookup idx (lowerStr t.tokenOwner), idxLookup idx (lowerStr t.fromAddr),
      idxLookup idx (lowerStr t.toAddr), coordsOf idx ts with
    | some a, some b, some c, some rest => some (a :: b :: c :: rest)
    | _, _, _, _ => none

/-- The terminal-edge amount sum of lines 139-143: the amounts of the
edges with `stream_sink_id == 1` are parsed with an `unwrap` (panic on
failure, modelled by `none`) and summed with `U256`'s `Sum`, whose
addition is 256-bit arithmetic: the sum wraps modulo `2 ^ 256` (in a
debug build the overflowing addition would panic instead; release
arithmetic wraps). -/
def terminalAmountSum (edges : List FlowEdge) : Option Nat :=
  let ps := (edges.filter (fun e => e.streamSinkId == 1)).map
    (fun e => u256FromStrRadix? e.amount 10)
  if ps.all (fun o => o.isSome) then some ((ps.map (fun o => o.getD 0)).sum % 2 ^ 256)
  else none

/-- The exact, overflow-free big-integer terminal sum, as the claim (and
spec invariant 5) describes it — the claim-side definition, to compare
with the wrapping `terminalAmountSum` the source actually computes. -/
def claimExactTerminalSum (edges : List FlowEdge) : Option Nat :=
  let ps := (edges.filter (fun e => e.streamSinkId == 1)).map
    (fun e => u256FromStrRadix? e.amount 10)
  if ps.all (fun o => o.isSome) then some ((ps.map (fun o => o.getD 0)).sum) else none

/-- The flow-mismatch error string of lines 146-150. -/
def mismatchMsg (s e : Nat) : String :=
  "Terminal sum " ++ toString s ++ " does not equal expected " ++ toString e

/-- The error propagated by `U256::from_str_radix(value, 10)?` on
line 138.  Its display text comes from the alloy crate and is not part of
this repository; a marker string carrying the offending input stands in
for it. -/
def amountParseErrMsg (v : String) : String :=
  "could not parse target amount: " ++ v

/-- Mirrors `create_flow_matrix` of `src/flow_matrix.rs`, stage by stage
and in source order: vertex transform (possible comparator panic), edge
construction, terminal-edge guarantee (possible underflow panic), stream
construction (`idx[&sender]`), coordinate packing, target-amount parse
(typed error), terminal-sum computation (possible `unwrap` panic) and the
flow-conservation check. -/
def createFlowMatrix (fromA toA value : String) (transfers : List TransferStep) :
    Outcome FlowMatrix :=
  let sender := lowerStr fromA
  let receiver := lowerStr toA
  match transformToFlowVertices transfers sender receiver with
  | none => .panicked
  | some (flowVertices, idx) =>
    match flowEdgesStage receiver transfers with
    | none => .panicked
    | some flowEdges =>
      match idxLookup idx sender with
      | none => .panicked
      | some srcCoord =>
        let streams : List Stream := [⟨srcCoord, termEdgeIds flowEdges, []⟩]
        match coordsOf idx transfers with
        | none => .panicked
        | some coords =>
          let packed := packCoordinates coords
          match u256FromStrRadix? value 10 with
          | none => .error (amountParseErrMsg value)
          | some expected =>
            match terminalAmountSum flowEdges with
            | none => .panicked
            | some s =>
              if s ≠ expected then .error (mismatchMsg s expected)
              else .ok ⟨flowVertices, flowEdges, streams, packed, srcCoord⟩

/-! # Basic lemmas about the character and string helpers -/

theorem toNat_ofNat_small (n : Nat) (h : n < 55296) : (Char.ofNat n).toNat = n := by
  simp [Char.ofNat, Nat.isValidChar, h, Char.toNat, Char.ofNatAux, UInt32.toNat,
    BitVec.toNat_ofNatLt]

theorem lowerChar_idem (c : Char) : lowerChar (lowerChar c) = lowerChar c := by
  unfold lowerChar
  by_cases h : 65 ≤ c.toNat ∧ c.toNat ≤ 90
  · rw [if_pos h]
    have hv : (Char.ofNat (c.toNat + 32)).toNat = c.toNat + 32 :=
      toNat_ofNat_small _ (by omega)
    rw [if_neg (by omega)]
  · rw [if_neg h, if_neg h]

theorem lowerStr_idem (s : String) : lowerStr (lowerStr s) = lowerStr s := by
  unfold lowerStr
  simp [List.map_map, Function.comp_def, lowerChar_idem]

/-! # Lemmas about the vertex-set construction -/

theorem mem_insertVertex {l : List String} {a x : String} :
    x ∈ insertVertex l a ↔ x ∈ l ∨ x = a := by
  unfold insertVertex
  split
  · constructor
    · exact Or.inl
    · rintro (hx | rfl) <;> [exact hx; assumption]
  · simp [or_comm]

theorem nodup_insertVertex {l : List String} (hl : l.Nodup) (a : String) :
    (insertVertex l a).Nodup := by
  unfold insertVertex
  split
  · exact hl
  · simpa [List.nodup_append] using ⟨hl, by assumption⟩

theorem foldl_insertVertex_nodup (keys : List String) :
    ∀ {acc : List String}, acc.Nodup → (keys.foldl insertVertex acc).Nodup := by
  induction keys with
  | nil => exact fun h => h
  | cons k ks ih => exact fun h => ih (nodup_insertVertex h k)

theorem mem_foldl_insertVertex (keys : List String) :
    ∀ (acc : List String) (x : String),
      x ∈ keys.foldl insertVertex acc ↔ x ∈ acc ∨ x ∈ keys := by
  induction keys with
  | nil => simp
  | cons k ks ih =>
    intro acc x
    simp only [List.foldl_cons, ih, mem_insertVertex, List.mem_cons]
    tauto

theorem distinctVertices_nodup (sender receiver : String) (ts : List TransferStep) :
    (distinctVertices sender receiver ts).Nodup :=
  foldl_insertVertex_nodup _ List.nodup_nil

theorem mem_distinctVertices {sender receiver : String} {ts : List TransferStep} {x : String} :
    x ∈ distinctVertices sender receiver ts ↔ x ∈ vertexKeys sender receiver ts := by
  unfold distinctVertices
  simp [mem_foldl_insertVertex]

theorem sender_mem_distinctVertices (sender receiver : String) (ts : List TransferStep) :
    lowerStr sender ∈ distinctVertices sender receiver ts := by
  rw [mem_distinctVertices]
  simp [vertexKeys]

theorem receiver_mem_distinctVertices (sender receiver : String) (ts : List TransferStep) :
    lowerStr receiver ∈ distinctVertices sender receiver ts := by
  rw [mem_distinctVertices]
  simp [vertexKeys]

/-! # Lemmas about the vertex sort -/

theorem sortVertices_some {l s : List String} (h : sortVertices l = some s) :
    s.Perm l ∧ s.Sorted addrLe := by
  unfold sortVertices at h
  split at h
  · cases h
    have hl : l.length ≤ 1 := by assumption
    refine ⟨List.Perm.refl _, ?_⟩
    match l, hl with
    | [], _ => exact List.sorted_nil
    | [a], _ => exact List.sorted_singleton a
    | a :: b :: rest, hl => exact absurd hl (by simp)
  · split at h
    · cases h
      exact ⟨List.perm_insertionSort addrLe l, List.sorted_insertionSort addrLe l⟩
    · cases h

theorem transformToFlowVertices_some {ts : List TransferStep} {sender receiver : String}
    {sorted : List String} {idx : List (String × Nat)}
    (h : transformToFlowVertices ts sender receiver = some (sorted, idx)) :
    sortVertices (distinctVertices sender receiver ts) = some sorted ∧ idx = mkIdx sorted := by
  unfold transformToFlowVertices at h
  cases hs : sortVertices (distinctVertices sender receiver ts) with
  | none => rw [hs] at h; cases h
  | some s0 =>
    rw [hs] at h
    simp only [Option.map_some', Option.some.injEq, Prod.mk.injEq] at h
    obtain ⟨h1, h2⟩ := h
    subst h1 h2
    exact ⟨rfl, rfl⟩

theorem flowVertices_facts {ts : List TransferStep} {sender receiver : String}
    {sorted : List String} {idx : List (String × Nat)}
    (h : transformToFlowVertices ts sender receiver = some (sorted, idx)) :
    sorted.Nodup ∧ sorted.Sorted addrLe ∧
      (∀ x, x ∈ sorted ↔ x ∈ vertexKeys sender receiver ts) ∧ idx = mkIdx sorted := by
  obtain ⟨hs, hidx⟩ := transformToFlowVertices_some h
  obtain ⟨hperm, hsorted⟩ := sortVertices_some hs
  refine ⟨hperm.nodup_iff.mpr (distinctVertices_nodup _ _ _), hsorted, ?_, hidx⟩
  intro x
  rw [hperm.mem_iff, mem_distinctVertices]

/-! # Lemmas about the coordinate index map -/

theorem find_mkIdx_enumFrom (l : List String) (a : String) :
    ∀ k : Nat,
      ((List.enumFrom k l).map (fun p => (p.2, p.1 % 2 ^ 16))).find? (fun p => p.1 == a) =
        if a ∈ l then some (a, (k + l.indexOf a) % 2 ^ 16) else none := by
  induction l with
  | nil => intro k; simp
  | cons x xs ih =>
    intro k
    rw [List.enumFrom_cons]
    by_cases hx : x = a
    · subst hx
      rw [List.map_cons, List.find?_cons_of_pos _ (by simp), if_pos (List.mem_cons_self x xs)]
      simp [List.indexOf_cons_self]
    · rw [List.map_cons, List.find?_cons_of_neg _ (by simp [hx]), ih (k + 1)]
      by_cases hmem : a ∈ xs
      · rw [if_pos hmem, if_pos (List.mem_cons_of_mem x hmem)]
        rw [List.indexOf_cons_ne _ hx]
        simp only [Nat.succ_eq_add_one]
        congr 2
        omega
      · rw [if_neg hmem, if_neg (by
          simp only [List.mem_cons, not_or]
          exact ⟨fun h => hx h.symm, hmem⟩)]

theorem idxLookup_mkIdx (sorted : List String) (a : String) :
    idxLookup (mkIdx sorted) a =
      if a ∈ sorted then some (sorted.indexOf a % 2 ^ 16) else none := by
  unfold idxLookup mkIdx
  rw [List.enum, find_mkIdx_enumFrom sorted a 0]
  by_cases h : a ∈ sorted
  · rw [if_pos h, if_pos h]
    simp
  · rw [if_neg h, if_neg h]
    rfl

theorem idxLookup_mkIdx_mem {sorted : List String} {a : String} (h : a ∈ sorted) :
    idxLookup (mkIdx sorted) a = some (sorted.indexOf a % 2 ^ 16) := by
  rw [idxLookup_mkIdx, if_pos h]

theorem idxLookup_mkIdx_bound {sorted : List String} {a : String} {c : Nat}
    (h : idxLookup (mkIdx sorted) a = some c) : c < sorted.length := by
  rw [idxLookup_mkIdx] at h
  split at h
  · obtain rfl : sorted.indexOf a % 2 ^ 16 = c := by simpa using h
    calc sorted.indexOf a % 2 ^ 16 ≤ sorted.indexOf a := Nat.mod_le _ _
      _ < sorted.length := List.indexOf_lt_length.mpr (by assumption)
  · cases h

/-! # Lemmas about the edge stage -/

theorem length_initialEdges (receiver : String) (ts : List TransferStep) :
    (initialEdges receiver ts).length = ts.length :=
  List.length_map ts _

theorem getElem?_initialEdges (receiver : String) (ts : List TransferStep) (i : Nat) :
    (initialEdges receiver ts)[i]? =
      (ts[i]?).map (fun t => ⟨if lowerStr t.toAddr == receiver then 1 else 0, t.value⟩) :=
  List.getElem?_map ..

theorem length_promoteEdge (edges : List FlowEdge) (i : Nat) :
    (promoteEdge edges i).length = edges.length := by
  unfold promoteEdge
  rw [List.length_map, List.enum_length]

theorem getElem?_promoteEdge (edges : List FlowEdge) (i j : Nat) :
    (promoteEdge edges i)[j]? =
      (edges[j]?).map (fun e => if j = i then ⟨1, e.amount⟩ else e) := by
  unfold promoteEdge
  rw [List.getElem?_map, List.getElem?_enum]
  cases edges[j]? <;> rfl

theorem rpos_eq_none_iff (l : List String) (r : String) :
    rpos l r = none ↔ r ∉ l := by
  unfold rpos
  rw [List.getLast?_eq_none_iff, List.map_eq_nil_iff, List.filter_eq_nil_iff]
  constructor
  · intro h hr
    rw [← List.enum_map_snd l] at hr
    obtain ⟨q, hq, hq2⟩ := List.mem_map.mp hr
    exact h q hq (by simp [hq2])
  · intro h q hq hqr
    apply h
    have h2 : q.2 ∈ List.map Prod.snd l.enum := List.mem_map_of_mem Prod.snd hq
    rw [List.enum_map_snd] at h2
    have h3 : q.2 = r := by simpa using hqr
    rwa [← h3]

/-! # Inversion of a successful `create_flow_matrix` run -/

theorem createFlowMatrix_ok_elim {f t v : String} {ts : List TransferStep} {m : FlowMatrix}
    (h : createFlowMatrix f t v ts = .ok m) :
    ∃ sorted idx edges srcCoord coords expected,
      transformToFlowVertices ts (lowerStr f) (lowerStr t) = some (sorted, idx) ∧
      flowEdgesStage (lowerStr t) ts = some edges ∧
      idxLookup idx (lowerStr f) = some srcCoord ∧
      coordsOf idx ts = some coords ∧
      u256FromStrRadix? v 10 = some expected ∧
      terminalAmountSum edges = some expected ∧
      m = ⟨sorted, edges, [⟨srcCoord, termEdgeIds edges, []⟩], packCoordinates coords, srcCoord⟩ := by
  simp only [createFlowMatrix] at h
  cases h1 : transformToFlowVertices ts (lowerStr f) (lowerStr t) with
  | none => rw [h1] at h; cases h
  | some p =>
    obtain ⟨sorted, idx⟩ := p
    rw [h1] at h; dsimp only at h
    cases h2 : flowEdgesStage (lowerStr t) ts with
    | none => rw [h2] at h; cases h
    | some edges =>
      rw [h2] at h; dsimp only at h
      cases h3 : idxLookup idx (lowerStr f) with
      | none => rw [h3] at h; cases h
      | some srcCoord =>
        rw [h3] at h; dsimp only at h
        cases h4 : coordsOf idx ts with
        | none => rw [h4] at h; cases h
        | some coords =>
          rw [h4] at h; dsimp only at h
          cases h5 : u256FromStrRadix? v 10 with
          | none => rw [h5] at h; cases h
          | some expected =>
            rw [h5] at h; dsimp only at h
            cases h6 : terminalAmountSum edges with
            | none => rw [h6] at h; cases h
            | some s =>
              rw [h6] at h; dsimp only at h
              by_cases hne : s ≠ expected
              · rw [if_pos hne] at h; cases h
              · rw [if_neg hne] at h
                have hs : s = expected := not_not.mp hne
                subst hs
                cases h
                exact ⟨sorted, idx, edges, srcCoord, coords, s, rfl, rfl, h3, h4, rfl, h6, rfl⟩

/-! # Characterization of the edge stage -/

theorem initialEdges_any (receiver : String) (ts : List TransferStep) :
    (initialEdges receiver ts).any (fun e => e.streamSinkId == 1) =
      ts.any (fun t => lowerStr t.toAddr == receiver) := by
  unfold initialEdges
  induction ts with
  | nil => rfl
  | cons t ts ih =>
    simp only [List.map_cons, List.any_cons, ih]
    congr 1
    by_cases hc : lowerStr t.toAddr == receiver
    · simp [hc]
    · simp [hc]

theorem flowEdgesStage_eq (receiver : String) (ts : List TransferStep) :
    flowEdgesStage receiver ts =
      if ts.any (fun t => lowerStr t.toAddr == receiver) then some (initialEdges receiver ts)
      else if ts.length = 0 then none
      else some (promoteEdge (initialEdges receiver ts) (ts.length - 1)) := by
  unfold flowEdgesStage ensureTerminal
  rw [initialEdges_any]
  by_cases hany : ts.any (fun t => lowerStr t.toAddr == receiver)
  · rw [if_pos hany, if_pos hany]
  · rw [if_neg hany, if_neg hany]
    have hnot : receiver ∉ ts.map (fun t => lowerStr t.toAddr) := by
      intro hmem
      obtain ⟨t, ht, heq⟩ := List.mem_map.mp hmem
      exact hany (List.any_eq_true.mpr ⟨t, ht, by simp [heq]⟩)
    rw [(rpos_eq_none_iff _ _).mpr hnot]
    rw [length_initialEdges]

/-! # Key membership and the coordinate computation -/

theorem transfer_keys_mem_vertexKeys (sender receiver : String) {ts : List TransferStep}
    {t : TransferStep} (ht : t ∈ ts) :
    lowerStr t.fromAddr ∈ vertexKeys sender receiver ts ∧
      lowerStr t.toAddr ∈ vertexKeys sender receiver ts ∧
      lowerStr t.tokenOwner ∈ vertexKeys sender receiver ts := by
  unfold vertexKeys
  refine ⟨?_, ?_, ?_⟩ <;>
    exact List.mem_append_right _ (List.mem_flatMap.mpr ⟨t, ht, by simp⟩)

theorem sender_mem_vertexKeys (sender receiver : String) (ts : List TransferStep) :
    lowerStr sender ∈ vertexKeys sender receiver ts := by
  unfold vertexKeys
  simp

theorem receiver_mem_vertexKeys (sender receiver : String) (ts : List TransferStep) :
    lowerStr receiver ∈ vertexKeys sender receiver ts := by
  unfold vertexKeys
  simp

theorem coordsOf_mkIdx_eq {sorted : List String} (ts : List TransferStep)
    (hmem : ∀ t ∈ ts, lowerStr t.tokenOwner ∈ sorted ∧ lowerStr t.fromAddr ∈ sorted ∧
      lowerStr t.toAddr ∈ sorted) :
    coordsOf (mkIdx sorted) ts = some (ts.flatMap (fun t =>
      [sorted.indexOf (lowerStr t.tokenOwner) % 2 ^ 16,
       sorted.indexOf (lowerStr t.fromAddr) % 2 ^ 16,
       sorted.indexOf (lowerStr t.toAddr) % 2 ^ 16])) := by
  induction ts with
  | nil => rfl
  | cons t ts ih =>
    obtain ⟨h1, h2, h3⟩ := hmem t (List.mem_cons_self t ts)
    have ihs := ih (fun s hs => hmem s (List.mem_cons_of_mem t hs))
    unfold coordsOf
    rw [idxLookup_mkIdx_mem h1, idxLookup_mkIdx_mem h2, idxLookup_mkIdx_mem h3, ihs]
    rfl

theorem sender_lookup_some {f t : String} {ts : List TransferStep}
    {sorted : List String} {idx : List (String × Nat)}
    (h : transformToFlowVertices ts (lowerStr f) (lowerStr t) = some (sorted, idx)) :
    idxLookup idx (lowerStr f) = some (sorted.indexOf (lowerStr f) % 2 ^ 16) := by
  obtain ⟨-, -, hmem, hidx⟩ := flowVertices_facts h
  have hf : lowerStr f ∈ sorted := by
    rw [hmem]
    have := sender_mem_vertexKeys (lowerStr f) (lowerStr t) ts
    rwa [lowerStr_idem] at this
  rw [hidx, idxLookup_mkIdx_mem hf]

theorem coordsOf_some_of_transform {f t : String} {ts : List TransferStep}
    {sorted : List String} {idx : List (String × Nat)}
    (h : transformToFlowVertices ts (lowerStr f) (lowerStr t) = some (sorted, idx)) :
    coordsOf idx ts = some (ts.flatMap (fun s =>
      [sorted.indexOf (lowerStr s.tokenOwner) % 2 ^ 16,
       sorted.indexOf (lowerStr s.fromAddr) % 2 ^ 16,
       sorted.indexOf (lowerStr s.toAddr) % 2 ^ 16])) := by
  obtain ⟨-, -, hmem, hidx⟩ := flowVertices_facts h
  rw [hidx]
  apply coordsOf_mkIdx_eq
  intro s hs
  obtain ⟨h1, h2, h3⟩ := transfer_keys_mem_vertexKeys (lowerStr f) (lowerStr t) hs
  exact ⟨(hmem _).mpr h3, (hmem _).mpr h1, (hmem _).mpr h2⟩

theorem createFlowMatrix_mismatch {f t v : String} {ts : List TransferStep}
    {sorted : List String} {idx : List (String × Nat)} {edges : List FlowEdge}
    {target s : Nat}
    (h1 : transformToFlowVertices ts (lowerStr f) (lowerStr t) = some (sorted, idx))
    (h2 : flowEdgesStage (lowerStr t) ts = some edges)
    (hv : u256FromStrRadix? v 10 = some target)
    (hsum : terminalAmountSum edges = some s)
    (hne : s ≠ target) :
    createFlowMatrix f t v ts = .error (mismatchMsg s target) := by
  simp only [createFlowMatrix]
  rw [h1]
  dsimp only
  rw [h2]
  dsimp only
  rw [sender_lookup_some h1]
  dsimp only
  rw [coordsOf_some_of_transform h1]
  dsimp only
  rw [hv]
  dsimp only
  rw [hsum]
  dsimp only
  rw [if_pos hne]

/-- Decimal rendering of `2 ^ 255`. -/
def pow255Str : String :=
  "57896044618658097711785492504343953926634992332820282019728792003956564819968"

/-- C1 (failing input): two terminal transfers of `2 ^ 255` each with
requested target "0".  The `U256` terminal sum wraps to 0 and matches the
target, so the program returns a matrix — although the exact big-integer
sum of its terminal-edge amounts is `2 ^ 256 ≠ 0`.  The claimed exact
flow-conservation equality (spec invariant 5) fails on this success, and
no flow-mismatch error is produced. -/
theorem claim1_wrap_collision :
    createFlowMatrix "0x1" "0x2" "0"
        [⟨"0x1", "0x2", "0x1", pow255Str⟩, ⟨"0x1", "0x2", "0x1", pow255Str⟩] =
      .ok ⟨["0x1", "0x2"], [⟨1, pow255Str⟩, ⟨1, pow255Str⟩], [⟨0, [0, 1], []⟩],
        "0x000000000001000000000001", 0⟩ ∧
    claimExactTerminalSum [⟨1, pow255Str⟩, ⟨1, pow255Str⟩] = some (2 ^ 256) ∧
    u256FromStrRadix? "0" 10 = some 0 ∧
    (2 : Nat) ^ 256 ≠ 0 := by
  refine ⟨by decide, by decide, by decide, by decide⟩

/-- C2 (code evidence): the index map built by `transform_to_flow_vertices`
assigns every sorted position `i` the coordinate `i as u16`, i.e.
`i % 2 ^ 16` — a silent truncation; no vertex-overflow check exists
anywhere in `create_flow_matrix`. -/
theorem claim2_index_truncation (sorted : List String) :
    (mkIdx sorted).map (fun p => p.2) =
      (List.range sorted.length).map (fun i => i % 2 ^ 16) := by
  unfold mkIdx
  rw [List.map_map]
  rw [show ((fun p : String × Nat => p.2) ∘ (fun p : Nat × String => (p.2, p.1 % 2 ^ 16))) =
    ((fun i => i % 2 ^ 16) ∘ Prod.fst) from rfl]
  rw [← List.map_map, List.enum_map_fst]

/-- C6 (failing input): on an empty transfer list `create_flow_matrix`
evaluates `flow_edges.len() - 1` on an empty vector and panics instead of
returning an `Err`. -/
theorem claim6_empty_transfers_panics :
    createFlowMatrix "0xa" "0xb" "5" [] = .panicked := by decide

/-- C3 counterexample: with distinct address strings of equal numeric
value ("0x1" and "0x01"), `create_flow_matrix` succeeds, yet the returned
`flowVertices` is not strictly ascending by numeric value. -/
theorem claim3_counterexample :
    createFlowMatrix "0x1" "0x01" "5" [⟨"0x1", "0x01", "0x1", "5"⟩] =
      .ok ⟨["0x1", "0x01"], [⟨1, "5"⟩], [⟨0, [0], []⟩], "0x000000000001", 0⟩ ∧
    ¬ List.Chain' (fun a b => addrVal a < addrVal b) ["0x1", "0x01"] := by
  refine ⟨by decide, ?_⟩
  intro hchain
  rw [List.chain'_cons] at hchain
  have hlt : addrVal "0x1" < addrVal "0x01" := hchain.1
  have h1 : addrVal "0x1" = 1 := by decide
  have h2 : addrVal "0x01" = 1 := by decide
  omega

/-- C3 (amended): the vertex list of every successfully returned matrix is
duplicate-free (as strings), weakly ascending by numeric address value,
contains the canonicalized source and sink, and is strictly ascending
whenever distinct vertex strings have distinct numeric values (so in
particular for fixed-width canonical addresses). -/
theorem claim3_amended (f t v : String) (ts : List TransferStep) (m : FlowMatrix)
    (h : createFlowMatrix f t v ts = .ok m) :
    m.flowVertices.Nodup ∧
    m.flowVertices.Sorted addrLe ∧
    lowerStr f ∈ m.flowVertices ∧
    lowerStr t ∈ m.flowVertices ∧
    ((∀ a ∈ m.flowVertices, ∀ b ∈ m.flowVertices, addrVal a = addrVal b → a = b) →
      List.Chain' (fun a b => addrVal a < addrVal b) m.flowVertices) := by
  obtain ⟨sorted, idx, edges, srcCoord, coords, expected, h1, -, -, -, -, -, hmeq⟩ :=
    createFlowMatrix_ok_elim h
  obtain ⟨hnd, hsorted, hmem, -⟩ := flowVertices_facts h1
  have hv : m.flowVertices = sorted := by rw [hmeq]
  rw [hv]
  refine ⟨hnd, hsorted, ?_, ?_, ?_⟩
  · rw [hmem]
    have := sender_mem_vertexKeys (lowerStr f) (lowerStr t) ts
    rwa [lowerStr_idem] at this
  · rw [hmem]
    have := receiver_mem_vertexKeys (lowerStr f) (lowerStr t) ts
    rwa [lowerStr_idem] at this
  · intro hinj
    refine List.Pairwise.chain' ?_
    have hcomb := List.Pairwise.and hsorted hnd
    refine hcomb.imp_of_mem ?_
    intro a b ha hb hab
    rcases Nat.lt_or_ge (addrVal a) (addrVal b) with hlt | hge
    · exact hlt
    · exact absurd (hinj a ha b hb (Nat.le_antisymm hab.1 hge)) hab.2

/-- Witness for C3 (amended) at a concrete successful input. -/
theorem claim3_amended_witness :
    (["0x1", "0x2"] : List String).Nodup ∧
    (["0x1", "0x2"] : List String).Sorted addrLe ∧
    lowerStr "0x1" ∈ (["0x1", "0x2"] : List String) ∧
    lowerStr "0x2" ∈ (["0x1", "0x2"] : List String) ∧
    ((∀ a ∈ (["0x1", "0x2"] : List String), ∀ b ∈ (["0x1", "0x2"] : List String),
        addrVal a = addrVal b → a = b) →
      List.Chain' (fun a b => addrVal a < addrVal b) ["0x1", "0x2"]) :=
  claim3_amended "0x1" "0x2" "5" [⟨"0x1", "0x2", "0x1", "5"⟩]
    ⟨["0x1", "0x2"], [⟨1, "5"⟩], [⟨0, [0], []⟩], "0x000000000001", 0⟩ (by decide)

/-- C4: every successfully returned matrix has one edge per transfer in
original order, carrying that transfer's amount; when some transfer
reaches the sink, edge `i` is terminal iff transfer `i` does; when none
does, the transfer list is non-empty and exactly the last edge is
promoted to terminal. -/
theorem claim4_edge_classification (f t v : String) (ts : List TransferStep) (m : FlowMatrix)
    (h : createFlowMatrix f t v ts = .ok m) :
    m.flowEdges.length = ts.length ∧
    (∀ i : Nat, (m.flowEdges[i]?).map FlowEdge.amount = (ts[i]?).map TransferStep.value) ∧
    (ts.any (fun s => lowerStr s.toAddr == lowerStr t) = true →
      ∀ (i : Nat) (e : FlowEdge), m.flowEdges[i]? = some e →
        (e.streamSinkId = 1 ↔ ∃ s, ts[i]? = some s ∧ lowerStr s.toAddr = lowerStr t)) ∧
    (ts.any (fun s => lowerStr s.toAddr == lowerStr t) = false →
      ts ≠ [] ∧
      ∀ (i : Nat) (e : FlowEdge), m.flowEdges[i]? = some e →
        (e.streamSinkId = 1 ↔ i = ts.length - 1)) := by
  obtain ⟨sorted, idx, edges, srcCoord, coords, expected, h1, h2, -, -, -, -, hmeq⟩ :=
    createFlowMatrix_ok_elim h
  have hE : m.flowEdges = edges := by rw [hmeq]
  rw [hE]
  rw [flowEdgesStage_eq] at h2
  by_cases hany : ts.any (fun s => lowerStr s.toAddr == lowerStr t) = true
  · rw [if_pos hany] at h2
    obtain rfl : initialEdges (lowerStr t) ts = edges := by simpa using h2
    refine ⟨length_initialEdges _ _, ?_, ?_, ?_⟩
    · intro i
      rw [getElem?_initialEdges]
      cases ts[i]? <;> rfl
    · intro _ i e he
      rw [getElem?_initialEdges] at he
      cases hts : ts[i]? with
      | none => rw [hts] at he; cases he
      | some s =>
        rw [hts] at he
        obtain rfl : (⟨if lowerStr s.toAddr == lowerStr t then 1 else 0, s.value⟩ : FlowEdge)
            = e := by simpa using he
        constructor
        · intro h1e
          by_cases hc : lowerStr s.toAddr == lowerStr t
          · exact ⟨s, rfl, beq_iff_eq.mp hc⟩
          · rw [if_neg hc] at h1e
            cases h1e
        · rintro ⟨s2, hs2, heq⟩
          obtain rfl : s = s2 := Option.some.inj hs2
          rw [if_pos (beq_iff_eq.mpr heq)]
    · intro hfalse
      rw [hany] at hfalse
      cases hfalse
  · have hanyf : ts.any (fun s => lowerStr s.toAddr == lowerStr t) = false :=
      Bool.eq_false_iff.mpr hany
    rw [if_neg hany] at h2
    by_cases hlen : ts.length = 0
    · rw [if_pos hlen] at h2
      cases h2
    · rw [if_neg hlen] at h2
      obtain rfl : promoteEdge (initialEdges (lowerStr t) ts) (ts.length - 1) = edges := by
        simpa using h2
      have hzero : ∀ s ∈ ts, lowerStr s.toAddr ≠ lowerStr t := by
        intro s hs heq
        exact (List.any_eq_false.mp hanyf s hs) (beq_iff_eq.mpr heq)
      refine ⟨by rw [length_promoteEdge, length_initialEdges], ?_, ?_, ?_⟩
      · intro i
        rw [getElem?_promoteEdge, getElem?_initialEdges]
        cases ts[i]? with
        | none => rfl
        | some s =>
          simp only [Option.map_some']
          congr 1
          split <;> rfl
      · intro htrue
        rw [hanyf] at htrue
        cases htrue
      · intro _
        refine ⟨fun hnil => hlen (by rw [hnil]; rfl), ?_⟩
        intro i e he
        rw [getElem?_promoteEdge, getElem?_initialEdges] at he
        cases hts : ts[i]? with
        | none => rw [hts] at he; cases he
        | some s =>
          rw [hts] at he
          simp only [Option.map_some', Option.some.injEq] at he
          have hs0 : lowerStr s.toAddr ≠ lowerStr t := hzero s (List.getElem?_mem hts)
          constructor
          · intro h1e
            by_cases hi : i = ts.length - 1
            · exact hi
            · rw [if_neg hi] at he
              rw [← he] at h1e
              rw [if_neg (by simpa using hs0)] at h1e
              cases h1e
          · intro hi
            rw [if_pos hi] at he
            rw [← he]

/-- Witness for C4 at a concrete successful input with a terminal
transfer. -/
theorem claim4_edge_classification_witness :
    ([⟨1, "5"⟩] : List FlowEdge).length = ([⟨"0x1", "0x2", "0x1", "5"⟩] : List TransferStep).length ∧
    (∀ i : Nat, (([⟨1, "5"⟩] : List FlowEdge)[i]?).map FlowEdge.amount =
      (([⟨"0x1", "0x2", "0x1", "5"⟩] : List TransferStep)[i]?).map TransferStep.value) ∧
    (([⟨"0x1", "0x2", "0x1", "5"⟩] : List TransferStep).any
        (fun s => lowerStr s.toAddr == lowerStr "0x2") = true →
      ∀ (i : Nat) (e : FlowEdge), ([⟨1, "5"⟩] : List FlowEdge)[i]? = some e →
        (e.streamSinkId = 1 ↔ ∃ s, ([⟨"0x1", "0x2", "0x1", "5"⟩] : List TransferStep)[i]? = some s ∧
          lowerStr s.toAddr = lowerStr "0x2")) ∧
    (([⟨"0x1", "0x2", "0x1", "5"⟩] : List TransferStep).any
        (fun s => lowerStr s.toAddr == lowerStr "0x2") = false →
      ([⟨"0x1", "0x2", "0x1", "5"⟩] : List TransferStep) ≠ [] ∧
      ∀ (i : Nat) (e : FlowEdge), ([⟨1, "5"⟩] : List FlowEdge)[i]? = some e →
        (e.streamSinkId = 1 ↔ i = ([⟨"0x1", "0x2", "0x1", "5"⟩] : List TransferStep).length - 1)) :=
  claim4_edge_classification "0x1" "0x2" "5" [⟨"0x1", "0x2", "0x1", "5"⟩]
    ⟨["0x1", "0x2"], [⟨1, "5"⟩], [⟨0, [0], []⟩], "0x000000000001", 0⟩ (by decide)

/-- The packed-coordinate string as the claim describes it: for each
transfer, in original order, the 16-bit big-endian encodings of the
positions in `vertices` of its canonicalized `tokenOwner`, `from` and
`to`, concatenated and rendered as a lowercase hex string behind the
two-character `0x` prefix (`coordBytes n` is the 16-bit big-endian byte
pair of `n` whenever `n < 2 ^ 16`). -/
def claimPackedCoordinates (vertices : List String) (ts : List TransferStep) : String :=
  ⟨'0' :: 'x' :: ((((ts.flatMap (fun s =>
    [vertices.indexOf (lowerStr s.tokenOwner),
     vertices.indexOf (lowerStr s.fromAddr),
     vertices.indexOf (lowerStr s.toAddr)])).flatMap coordBytes).flatMap byteHex))⟩

theorem coordBytes_mod (x : Nat) : coordBytes (x % 2 ^ 16) = coordBytes x := by
  unfold coordBytes
  have h1 : x % 2 ^ 16 / 2 ^ 8 % 2 ^ 8 = x / 2 ^ 8 % 2 ^ 8 := by omega
  have h2 : x % 2 ^ 16 % 2 ^ 8 = x % 2 ^ 8 := by omega
  rw [h1, h2]

theorem length_flatMap_const {α β : Type} (f : α → List β) (k : Nat)
    (hf : ∀ a, (f a).length = k) (l : List α) : (l.flatMap f).length = k * l.length := by
  induction l with
  | nil => simp
  | cons x xs ih =>
    rw [List.flatMap_cons, List.length_append, hf, ih, List.length_cons]
    ring

theorem length_packCoordinates (coords : List Nat) :
    (packCoordinates coords).length = 2 + 4 * coords.length := by
  show ((coords.flatMap coordBytes).flatMap byteHex).length + 1 + 1 = 2 + 4 * coords.length
  rw [length_flatMap_const byteHex 2 (fun b => rfl),
    length_flatMap_const coordBytes 2 (fun c => rfl)]
  omega

/-- C5: the packed coordinates of every successfully returned matrix
consist of exactly 6 bytes per transfer (12 hex characters plus the
two-character prefix), are exactly the concatenated 16-bit big-endian
encodings of the `flowVertices` positions of each transfer's tokenOwner,
from and to, in original order, rendered in lowercase hex behind `0x`;
and `[0x1234, 0x5678]` packs to `"0x12345678"`. -/
theorem claim5_packed_coordinates (f t v : String) (ts : List TransferStep) (m : FlowMatrix)
    (h : createFlowMatrix f t v ts = .ok m) :
    m.packedCoordinates = claimPackedCoordinates m.flowVertices ts ∧
    m.packedCoordinates.length = 2 + 12 * ts.length ∧
    packCoordinates [0x1234, 0x5678] = "0x12345678" := by
  obtain ⟨sorted, idx, edges, srcCoord, coords, expected, h1, -, -, h4, -, -, hmeq⟩ :=
    createFlowMatrix_ok_elim h
  have hc := coordsOf_some_of_transform h1
  rw [h4] at hc
  obtain rfl := Option.some.inj hc
  have hp : m.packedCoordinates = packCoordinates (ts.flatMap (fun s =>
      [sorted.indexOf (lowerStr s.tokenOwner) % 2 ^ 16,
       sorted.indexOf (lowerStr s.fromAddr) % 2 ^ 16,
       sorted.indexOf (lowerStr s.toAddr) % 2 ^ 16])) := by rw [hmeq]
  have hv : m.flowVertices = sorted := by rw [hmeq]
  refine ⟨?_, ?_, by decide⟩
  · rw [hp, hv]
    unfold packCoordinates claimPackedCoordinates
    have hbytes : ((ts.flatMap (fun s =>
        [sorted.indexOf (lowerStr s.tokenOwner) % 2 ^ 16,
         sorted.indexOf (lowerStr s.fromAddr) % 2 ^ 16,
         sorted.indexOf (lowerStr s.toAddr) % 2 ^ 16])).flatMap coordBytes) =
        ((ts.flatMap (fun s =>
        [sorted.indexOf (lowerStr s.tokenOwner),
         sorted.indexOf (lowerStr s.fromAddr),
         sorted.indexOf (lowerStr s.toAddr)])).flatMap coordBytes) := by
      rw [List.flatMap_assoc, List.flatMap_assoc]
      congr 1
      funext s
      simp only [List.flatMap_cons, List.flatMap_nil, List.append_nil, coordBytes_mod]
    rw [hbytes]
  · rw [hp, length_packCoordinates,
      length_flatMap_const (fun s : TransferStep =>
        [sorted.indexOf (lowerStr s.tokenOwner) % 2 ^ 16,
         sorted.indexOf (lowerStr s.fromAddr) % 2 ^ 16,
         sorted.indexOf (lowerStr s.toAddr) % 2 ^ 16]) 3 (fun s => rfl)]
    ring

/-- Witness for C5 at a concrete successful input. -/
theorem claim5_packed_coordinates_witness :
    ("0x000000000001" : String) =
      claimPackedCoordinates ["0x1", "0x2"] [⟨"0x1", "0x2", "0x1", "5"⟩] ∧
    ("0x000000000001" : String).length =
      2 + 12 * ([⟨"0x1", "0x2", "0x1", "5"⟩] : List TransferStep).length ∧
    packCoordinates [0x1234, 0x5678] = "0x12345678" :=
  claim5_packed_coordinates "0x1" "0x2" "5" [⟨"0x1", "0x2", "0x1", "5"⟩]
    ⟨["0x1", "0x2"], [⟨1, "5"⟩], [⟨0, [0], []⟩], "0x000000000001", 0⟩ (by decide)

/-- Decoding of a lowercase-hex byte string into bytes, used to read the
packed coordinates back as the claims describe. -/
def decodeHexBytes : List Char → List Nat
  | c1 :: c2 :: rest =>
    (16 * (digitVal? 16 c1).getD 0 + (digitVal? 16 c2).getD 0) :: decodeHexBytes rest
  | _ => []

/-- Big-endian 16-bit recombination of a byte list. -/
def decodeBE16 : List Nat → List Nat
  | b1 :: b2 :: rest => (2 ^ 8 * b1 + b2) :: decodeBE16 rest
  | _ => []

/-- The 16-bit indices decoded from a packed-coordinate string: strip the
`0x` prefix, read hex digit pairs as bytes, recombine byte pairs
big-endian. -/
def decodePackedCoordinates (s : String) : List Nat :=
  decodeBE16 (decodeHexBytes (trim0x s.data))

theorem trim0x_eq_self {l : List Char} (h : ∀ rest, l ≠ '0' :: 'x' :: rest) :
    trim0x l = l := by
  rw [trim0x.eq_def]
  split
  · rename_i rest
    exact absurd rfl (h rest)
  · rfl

theorem hexChar_ne_x {n : Nat} (h : n < 16) : hexChar n ≠ 'x' := by
  have : ∀ m, m < 16 → hexChar m ≠ 'x' := by decide
  exact this n h

theorem trim0x_byteHex (bytes : List Nat) :
    trim0x (bytes.flatMap byteHex) = bytes.flatMap byteHex := by
  apply trim0x_eq_self
  intro rest hfalse
  cases bytes with
  | nil => cases hfalse
  | cons b bs =>
    rw [List.flatMap_cons] at hfalse
    unfold byteHex at hfalse
    simp only [List.cons_append, List.nil_append] at hfalse
    injection hfalse with h1 h2
    injection h2 with h3 h4
    exact hexChar_ne_x (Nat.mod_lt _ (by omega)) h3

theorem digitVal_hexChar {d : Nat} (h : d < 16) : digitVal? 16 (hexChar d) = some d := by
  have : ∀ m, m < 16 → digitVal? 16 (hexChar m) = some m := by decide
  exact this d h

theorem decodeHexBytes_byteHex (bytes : List Nat) (h : ∀ b ∈ bytes, b < 2 ^ 8) :
    decodeHexBytes (bytes.flatMap byteHex) = bytes := by
  induction bytes with
  | nil => rfl
  | cons b bs ih =>
    have hb : b < 2 ^ 8 := h b (List.mem_cons_self b bs)
    rw [List.flatMap_cons]
    unfold byteHex
    show decodeHexBytes (hexChar (b / 16 % 16) :: hexChar (b % 16) :: bs.flatMap byteHex) = _
    unfold decodeHexBytes
    rw [digitVal_hexChar (Nat.mod_lt _ (by omega)), digitVal_hexChar (Nat.mod_lt _ (by omega)),
      ih (fun x hx => h x (List.mem_cons_of_mem b hx))]
    simp only [Option.getD_some, List.cons.injEq, and_true]
    omega

theorem decodeBE16_coordBytes (coords : List Nat) (h : ∀ c ∈ coords, c < 2 ^ 16) :
    decodeBE16 (coords.flatMap coordBytes) = coords := by
  induction coords with
  | nil => rfl
  | cons c cs ih =>
    have hc : c < 2 ^ 16 := h c (List.mem_cons_self c cs)
    rw [List.flatMap_cons]
    unfold coordBytes
    show decodeBE16 (c / 2 ^ 8 % 2 ^ 8 :: c % 2 ^ 8 :: cs.flatMap coordBytes) = _
    unfold decodeBE16
    rw [ih (fun x hx => h x (List.mem_cons_of_mem c hx))]
    simp only [List.cons.injEq, and_true]
    omega

theorem coordBytes_mem_lt (coords : List Nat) :
    ∀ b ∈ coords.flatMap coordBytes, b < 2 ^ 8 := by
  intro b hb
  obtain ⟨c, -, hbc⟩ := List.mem_flatMap.mp hb
  unfold coordBytes at hbc
  simp only [List.mem_cons, List.not_mem_nil, or_false] at hbc
  rcases hbc with rfl | rfl <;> omega

theorem decodePackedCoordinates_packCoordinates (coords : List Nat)
    (h : ∀ c ∈ coords, c < 2 ^ 16) :
    decodePackedCoordinates (packCoordinates coords) = coords := by
  unfold decodePackedCoordinates packCoordinates
  show decodeBE16 (decodeHexBytes (trim0x ('0' :: 'x' :: _))) = _
  rw [show ∀ rest, trim0x ('0' :: 'x' :: rest) = trim0x rest from fun rest => rfl]
  rw [trim0x_byteHex, decodeHexBytes_byteHex _ (coordBytes_mem_lt coords),
    decodeBE16_coordBytes coords h]

theorem fst_lt_of_mem_enum {α : Type} {l : List α} {q : Nat × α} (h : q ∈ l.enum) :
    q.1 < l.length := by
  have : q.1 ∈ List.map Prod.fst l.enum := List.mem_map_of_mem Prod.fst h
  rw [List.enum_map_fst] at this
  exact List.mem_range.mp this

theorem mem_termEdgeIds_lt {edges : List FlowEdge} {i : Nat} (h : i ∈ termEdgeIds edges) :
    i < edges.length := by
  unfold termEdgeIds at h
  obtain ⟨q, hq, hqi⟩ := List.mem_filterMap.mp h
  have hqlt : q.1 < edges.length := fst_lt_of_mem_enum hq
  split at hqi
  · obtain rfl : q.1 % 2 ^ 16 = i := Option.some.inj hqi
    calc q.1 % 2 ^ 16 ≤ q.1 := Nat.mod_le _ _
      _ < edges.length := hqlt
  · cases hqi

theorem transfer_keys_mem_sorted {f t : String} {ts : List TransferStep}
    {sorted : List String} {idx : List (String × Nat)}
    (h1 : transformToFlowVertices ts (lowerStr f) (lowerStr t) = some (sorted, idx)) :
    ∀ s ∈ ts, lowerStr s.tokenOwner ∈ sorted ∧ lowerStr s.fromAddr ∈ sorted ∧
      lowerStr s.toAddr ∈ sorted := by
  obtain ⟨-, -, hmem, -⟩ := flowVertices_facts h1
  intro s hs
  obtain ⟨ha, hb, hc⟩ := transfer_keys_mem_vertexKeys (lowerStr f) (lowerStr t) hs
  exact ⟨(hmem _).mpr hc, (hmem _).mpr ha, (hmem _).mpr hb⟩

/-- C9 (amended): in every successfully returned matrix, the matrix's
`sourceCoordinate`, each stream's `sourceCoordinate` and every 16-bit
index decoded from `packedCoordinates` is a valid position in
`flowVertices`, while each element of a stream's `flowEdgeIds` is a valid
position in `flowEdges` (not `flowVertices`, which the original claim
asserts). -/
theorem claim9_amended_index_validity (f t v : String) (ts : List TransferStep) (m : FlowMatrix)
    (h : createFlowMatrix f t v ts = .ok m) :
    m.sourceCoordinate < m.flowVertices.length ∧
    (∀ st ∈ m.streams, st.sourceCoordinate < m.flowVertices.length ∧
      ∀ i ∈ st.flowEdgeIds, i < m.flowEdges.length) ∧
    (∀ c ∈ decodePackedCoordinates m.packedCoordinates, c < m.flowVertices.length) := by
  obtain ⟨sorted, idx, edges, srcCoord, coords, expected, h1, h2, h3, h4, -, -, hmeq⟩ :=
    createFlowMatrix_ok_elim h
  obtain ⟨-, -, -, hidx⟩ := flowVertices_facts h1
  have hsrc : srcCoord < sorted.length := idxLookup_mkIdx_bound (hidx ▸ h3)
  have hcoords : coords = ts.flatMap (fun s =>
      [sorted.indexOf (lowerStr s.tokenOwner) % 2 ^ 16,
       sorted.indexOf (lowerStr s.fromAddr) % 2 ^ 16,
       sorted.indexOf (lowerStr s.toAddr) % 2 ^ 16]) := by
    have hc := coordsOf_some_of_transform h1
    rw [h4] at hc
    exact Option.some.inj hc
  have hcbound : ∀ c ∈ coords, c < sorted.length := by
    intro c hc
    rw [hcoords] at hc
    obtain ⟨st, hst, hcin⟩ := List.mem_flatMap.mp hc
    obtain ⟨hko, hkf, hkt⟩ := transfer_keys_mem_sorted h1 st hst
    simp only [List.mem_cons, List.not_mem_nil, or_false] at hcin
    rcases hcin with rfl | rfl | rfl
    · calc sorted.indexOf (lowerStr st.tokenOwner) % 2 ^ 16
          ≤ sorted.indexOf (lowerStr st.tokenOwner) := Nat.mod_le _ _
        _ < sorted.length := List.indexOf_lt_length.mpr hko
    · calc sorted.indexOf (lowerStr st.fromAddr) % 2 ^ 16
          ≤ sorted.indexOf (lowerStr st.fromAddr) := Nat.mod_le _ _
        _ < sorted.length := List.indexOf_lt_length.mpr hkf
    · calc sorted.indexOf (lowerStr st.toAddr) % 2 ^ 16
          ≤ sorted.indexOf (lowerStr st.toAddr) := Nat.mod_le _ _
        _ < sorted.length := List.indexOf_lt_length.mpr hkt
  have hc16 : ∀ c ∈ coords, c < 2 ^ 16 := by
    intro c hc
    rw [hcoords] at hc
    obtain ⟨st, -, hcin⟩ := List.mem_flatMap.mp hc
    simp only [List.mem_cons, List.not_mem_nil, or_false] at hcin
    rcases hcin with rfl | rfl | rfl <;> exact Nat.mod_lt _ (by omega)
  subst hmeq
  refine ⟨hsrc, ?_, ?_⟩
  · intro st hst
    simp only [List.mem_cons, List.not_mem_nil, or_false] at hst
    subst hst
    refine ⟨hsrc, ?_⟩
    intro i hi
    exact mem_termEdgeIds_lt hi
  · intro c hc
    rw [show (FlowMatrix.mk sorted edges [⟨srcCoord, termEdgeIds edges, []⟩]
        (packCoordinates coords) srcCoord).packedCoordinates = packCoordinates coords from rfl,
      decodePackedCoordinates_packCoordinates coords hc16] at hc
    exact hcbound c hc

/-- Witness for C9 (amended) at a concrete successful input. -/
theorem claim9_amended_index_validity_witness :
    (0 : Nat) < (["0x1", "0x2"] : List String).length ∧
    (∀ st ∈ ([⟨0, [0], []⟩] : List Stream), st.sourceCoordinate < (["0x1", "0x2"] : List String).length ∧
      ∀ i ∈ st.flowEdgeIds, i < ([⟨1, "5"⟩] : List FlowEdge).length) ∧
    (∀ c ∈ decodePackedCoordinates "0x000000000001", c < (["0x1", "0x2"] : List String).length) :=
  claim9_amended_index_validity "0x1" "0x2" "5" [⟨"0x1", "0x2", "0x1", "5"⟩]
    ⟨["0x1", "0x2"], [⟨1, "5"⟩], [⟨0, [0], []⟩], "0x000000000001", 0⟩ (by decide)

/-- C9 counterexample: a successful matrix whose stream's `flowEdgeIds`
contains the edge index 2, which is not a valid position in the
two-element `flowVertices` — the claim's bound fails for edge
identifiers. -/
theorem claim9_counterexample :
    createFlowMatrix "0x1" "0x2" "3"
        [⟨"0x1", "0x2", "0x1", "1"⟩, ⟨"0x1", "0x2", "0x1", "1"⟩, ⟨"0x1", "0x2", "0x1", "1"⟩] =
      .ok ⟨["0x1", "0x2"], [⟨1, "1"⟩, ⟨1, "1"⟩, ⟨1, "1"⟩], [⟨0, [0, 1, 2], []⟩],
        "0x000000000001000000000001000000000001", 0⟩ ∧
    2 ∈ (([⟨0, [0, 1, 2], []⟩] : List Stream).flatMap Stream.flowEdgeIds) ∧
    ¬ 2 < (["0x1", "0x2"] : List String).length := by
  exact ⟨by decide, by decide, by decide⟩

namespace Circles

/-- Mirrors `Transfer` of `src/circles.rs`. -/
structure Transfer where
  fromAddr : String
  toAddr : String
  tokenOwner : String
  value : String
deriving DecidableEq, Repr

/-- Mirrors `PathfindingResult` of `src/circles.rs`. -/
structure PathfindingResult where
  maxFlow : String
  transfers : List Transfer
deriving DecidableEq, Repr

/-- Mirrors `RpcError` of `src/circles.rs`. -/
structure RpcError where
  code : Int
  message : String
deriving DecidableEq, Repr

/-- Mirrors `RpcResponse<T>` of `src/circles.rs`. -/
structure RpcResponse (T : Type) where
  result : Option T
  error : Option RpcError
deriving DecidableEq, Repr

/-- `serde_json::to_string` of an `RpcError` (no escaping modelled; the
messages appearing in the claims contain no characters that serde would
escape). -/
def rpcErrorJson (e : RpcError) : String :=
  "\x7b\"code\":" ++ toString e.code ++ ",\"message\":\"" ++ e.message ++ "\"\x7d"

/-- The response-handling logic of `find_path` (`src/circles.rs`
lines 79-95).  The network transport is abstracted by the transport
status (`is_success` flag plus its display text) and the decoded response
body; failures of the send itself or of JSON decoding propagate reqwest /
serde errors upstream of this logic and are outside it. -/
def findPathHandle (httpSuccess : Bool) (status : String)
    (resp : RpcResponse PathfindingResult) : Except String PathfindingResult :=
  if !httpSuccess then .error ("Pathfinder RPC returned HTTP " ++ status)
  else
    match resp.result with
    | some r => .ok r
    | none =>
      .error ("Pathfinder RPC error: " ++ rpcErrorJson (resp.error.getD ⟨-1, "Unknown error"⟩))

end Circles

/-- C7 counterexample: a successful transport response with neither
result nor error produces exactly the same outcome as a response carrying
the domain error `{code = -1, message = "Unknown error"}` — the
malformed-response case is reported as an RPC failure and is not
distinguishable from it. -/
theorem claim7_counterexample :
    Circles.findPathHandle true "200 OK" ⟨none, none⟩ =
      Circles.findPathHandle true "200 OK" ⟨none, some ⟨-1, "Unknown error"⟩⟩ ∧
    Circles.findPathHandle true "200 OK" ⟨none, none⟩ =
      .error ("Pathfinder RPC error: " ++ Circles.rpcErrorJson ⟨-1, "Unknown error"⟩) :=
  ⟨rfl, rfl⟩

/-- C7 (amended): `find_path` returns `Ok` iff the transport succeeds and
the response carries a result; a non-success transport status yields a
transport error carrying the status; a successful transport response
without a result yields an RPC-error failure carrying the response's
error code and message when present and the defaults
`{-1, "Unknown error"}` otherwise — the missing-error case is rendered
identically to a genuine domain error with those defaults. -/
theorem claim7_response_handling (success : Bool) (status : String)
    (resp : Circles.RpcResponse Circles.PathfindingResult) :
    (∀ r, Circles.findPathHandle success status resp = .ok r ↔
      success = true ∧ resp.result = some r) ∧
    (success = false →
      Circles.findPathHandle success status resp =
        .error ("Pathfinder RPC returned HTTP " ++ status)) ∧
    (success = true → resp.result = none →
      Circles.findPathHandle success status resp =
        .error ("Pathfinder RPC error: " ++
          Circles.rpcErrorJson (resp.error.getD ⟨-1, "Unknown error"⟩))) := by
  cases success with
  | false =>
    refine ⟨?_, fun _ => rfl, ?_⟩
    · intro r
      constructor
      · intro hfalse
        cases hfalse
      · rintro ⟨hfalse, -⟩
        cases hfalse
    · intro hfalse
      cases hfalse
  | true =>
    cases hres : resp.result with
    | some r0 =>
      refine ⟨?_, ?_, ?_⟩
      · intro r
        constructor
        · intro hok
          have h0 : r0 = r := by simpa [Circles.findPathHandle, hres] using hok
          exact ⟨rfl, by rw [h0]⟩
        · rintro ⟨-, hr⟩
          obtain rfl := Option.some.inj hr
          simp [Circles.findPathHandle, hres]
      · intro hfalse
        cases hfalse
      · intro _ hnone
        cases hnone
    | none =>
      refine ⟨?_, ?_, ?_⟩
      · intro r
        constructor
        · intro hok
          have hfalse : False := by simp [Circles.findPathHandle, hres] at hok
          cases hfalse
        · rintro ⟨-, hr⟩
          cases hr
      · intro hfalse
        cases hfalse
      · intro _ _
        simp [Circles.findPathHandle, hres]

/-- Witness for C7 (amended) at concrete transport outcomes. -/
theorem claim7_response_handling_witness :
    Circles.findPathHandle false "500 Internal Server Error" ⟨none, none⟩ =
      .error ("Pathfinder RPC returned HTTP " ++ "500 Internal Server Error") ∧
    Circles.findPathHandle true "200 OK" ⟨some ⟨"1", []⟩, none⟩ = .ok ⟨"1", []⟩ :=
  ⟨(claim7_response_handling false "500 Internal Server Error" ⟨none, none⟩).2.1 rfl,
   ((claim7_response_handling true "200 OK" ⟨some ⟨"1", []⟩, none⟩).1 ⟨"1", []⟩).mpr
     ⟨rfl, rfl⟩⟩

/-- Canonicalization of one transfer's three address fields (its amount
string is untouched): two transfer lists are case-variants of one another
exactly when their images under `stepLower` agree. -/
def stepLower (s : TransferStep) : TransferStep :=
  ⟨lowerStr s.fromAddr, lowerStr s.toAddr, lowerStr s.tokenOwner, s.value⟩

theorem vertexKeys_stepLower (sender receiver : String) (ts : List TransferStep) :
    vertexKeys sender receiver (ts.map stepLower) = vertexKeys sender receiver ts := by
  unfold vertexKeys
  congr 1
  rw [List.flatMap_map]
  apply List.flatMap_congr
  intro x _
  unfold stepLower
  simp [lowerStr_idem]

theorem transform_stepLower (sender receiver : String) (ts : List TransferStep) :
    transformToFlowVertices (ts.map stepLower) sender receiver =
      transformToFlowVertices ts sender receiver := by
  unfold transformToFlowVertices distinctVertices
  rw [vertexKeys_stepLower]

theorem initialEdges_stepLower (receiver : String) (ts : List TransferStep) :
    initialEdges receiver (ts.map stepLower) = initialEdges receiver ts := by
  unfold initialEdges
  rw [List.map_map]
  apply List.map_congr_left
  intro x _
  unfold stepLower
  simp [Function.comp, lowerStr_idem]

theorem flowEdgesStage_stepLower (receiver : String) (ts : List TransferStep) :
    flowEdgesStage receiver (ts.map stepLower) = flowEdgesStage receiver ts := by
  unfold flowEdgesStage ensureTerminal
  rw [initialEdges_stepLower]
  rw [show (ts.map stepLower).map (fun t => lowerStr t.toAddr) =
      ts.map (fun t => lowerStr t.toAddr) by
    rw [List.map_map]
    apply List.map_congr_left
    intro x _
    unfold stepLower
    simp [Function.comp, lowerStr_idem]]

theorem coordsOf_stepLower (idx : List (String × Nat)) (ts : List TransferStep) :
    coordsOf idx (ts.map stepLower) = coordsOf idx ts := by
  induction ts with
  | nil => rfl
  | cons x xs ih =>
    rw [List.map_cons]
    unfold coordsOf
    rw [ih]
    simp only [stepLower, lowerStr_idem]

theorem createFlowMatrix_lower (f t v : String) (ts : List TransferStep) :
    createFlowMatrix f t v ts =
      createFlowMatrix (lowerStr f) (lowerStr t) v (ts.map stepLower) := by
  simp only [createFlowMatrix, lowerStr_idem, transform_stepLower, flowEdgesStage_stepLower,
    coordsOf_stepLower]

theorem mem_vertexKeys_isLower {sender receiver : String} {ts : List TransferStep} {x : String}
    (h : x ∈ vertexKeys sender receiver ts) : lowerStr x = x := by
  unfold vertexKeys at h
  rcases List.mem_append.mp h with h2 | h2
  · simp only [List.mem_cons, List.not_mem_nil, or_false] at h2
    rcases h2 with rfl | rfl <;> exact lowerStr_idem _
  · obtain ⟨s, -, hin⟩ := List.mem_flatMap.mp h2
    simp only [List.mem_cons, List.not_mem_nil, or_false] at hin
    rcases hin with rfl | rfl | rfl <;> exact lowerStr_idem _

/-- C10: two calls whose inputs differ only in the letter case of the
address strings (same lowercase images; amounts untouched) have
identical outcomes — same matrix on success, same error or panic
otherwise — and every vertex string of a successful matrix is in
lowercase canonical form. -/
theorem claim10_case_insensitivity (f f2 t t2 v : String) (ts ts2 : List TransferStep)
    (hf : lowerStr f = lowerStr f2) (ht : lowerStr t = lowerStr t2)
    (hts : ts.map stepLower = ts2.map stepLower) :
    createFlowMatrix f t v ts = createFlowMatrix f2 t2 v ts2 ∧
    (∀ m : FlowMatrix, createFlowMatrix f t v ts = .ok m →
      ∀ a ∈ m.flowVertices, lowerStr a = a) := by
  constructor
  · rw [createFlowMatrix_lower f t v ts, createFlowMatrix_lower f2 t2 v ts2, hf, ht, hts]
  · intro m hm a ha
    obtain ⟨sorted, idx, edges, srcCoord, coords, expected, h1, -, -, -, -, -, hmeq⟩ :=
      createFlowMatrix_ok_elim hm
    obtain ⟨-, -, hmem, -⟩ := flowVertices_facts h1
    have hv : m.flowVertices = sorted := by rw [hmeq]
    rw [hv] at ha
    exact mem_vertexKeys_isLower ((hmem a).mp ha)

/-- Witness for C10 at two concrete case-variant inputs. -/
theorem claim10_case_insensitivity_witness :
    createFlowMatrix "0xAB" "0xCD" "5" [⟨"0xAB", "0xCD", "0xAB", "5"⟩] =
      createFlowMatrix "0xab" "0xcd" "5" [⟨"0xaB", "0xCd", "0xAb", "5"⟩] ∧
    (∀ m : FlowMatrix, createFlowMatrix "0xAB" "0xCD" "5" [⟨"0xAB", "0xCD", "0xAB", "5"⟩] = .ok m →
      ∀ a ∈ m.flowVertices, lowerStr a = a) :=
  claim10_case_insensitivity "0xAB" "0xab" "0xCD" "0xcd" "5"
    [⟨"0xAB", "0xCD", "0xAB", "5"⟩] [⟨"0xaB", "0xCd", "0xAb", "5"⟩]
    (by decide) (by decide) (by decide)

/-- The terminal-edge identifier list as the claim describes it: the
positions, in ascending order, of the edges with `streamSinkId = 1`
(true positions, no 16-bit cast). -/
def claimTerminalIndices (edges : List FlowEdge) : List Nat :=
  edges.enum.filterMap (fun q => if q.2.streamSinkId == 1 then some q.1 else none)

theorem termEdgeIds_eq_claim {edges : List FlowEdge} (h : edges.length ≤ 2 ^ 16) :
    termEdgeIds edges = claimTerminalIndices edges := by
  unfold termEdgeIds claimTerminalIndices
  apply List.filterMap_congr
  intro q hq
  split
  · rw [Nat.mod_eq_of_lt (Nat.lt_of_lt_of_le (fst_lt_of_mem_enum hq) h)]
  · rfl

theorem pairwise_claimTerminalIndices (edges : List FlowEdge) :
    List.Pairwise (fun a b => a < b) (claimTerminalIndices edges) := by
  unfold claimTerminalIndices
  have h0 : List.Pairwise (fun a b : Nat => a < b) (List.map Prod.fst edges.enum) := by
    rw [List.enum_map_fst]
    exact List.pairwise_lt_range _
  have h1 : List.Pairwise (fun a b : Nat × FlowEdge => a.1 < b.1) edges.enum :=
    List.pairwise_map.mp h0
  refine List.Pairwise.filterMap _ ?_ h1
  intro a a2 hlt b hb b2 hb2
  split at hb
  · obtain rfl : a.1 = b := by simpa using hb
    split at hb2
    · obtain rfl : a2.1 = b2 := by simpa using hb2
      exact hlt
    · simp at hb2
  · simp at hb

theorem foldl_insertVertex_of_subset (l : List String) :
    ∀ (acc : List String), (∀ x ∈ l, x ∈ acc) → l.foldl insertVertex acc = acc := by
  induction l with
  | nil => intro acc _; rfl
  | cons x xs ih =>
    intro acc hsub
    rw [List.foldl_cons]
    have hx : insertVertex acc x = acc := by
      unfold insertVertex
      rw [if_pos (hsub x (List.mem_cons_self x xs))]
    rw [hx]
    exact ih acc (fun y hy => hsub y (List.mem_cons_of_mem x hy))

theorem enumFrom_replicate {α : Type} (e : α) :
    ∀ (n k : Nat), List.enumFrom k (List.replicate n e) =
      (List.range n).map (fun i => (k + i, e)) := by
  intro n
  induction n with
  | zero => intro k; rfl
  | succ n ih =>
    intro k
    rw [List.replicate_succ, List.enumFrom_cons, ih (k + 1), List.range_succ_eq_map,
      List.map_cons, List.map_map]
    congr 1
    apply List.map_congr_left
    intro i _
    simp only [Function.comp, Nat.succ_eq_add_one, Prod.mk.injEq, and_true]
    omega

theorem enum_replicate {α : Type} (e : α) (n : Nat) :
    (List.replicate n e).enum = (List.range n).map (fun i => (i, e)) := by
  rw [List.enum, enumFrom_replicate]
  apply List.map_congr_left
  intro i _
  rw [Nat.zero_add]

theorem termEdgeIds_replicate (n : Nat) :
    termEdgeIds (List.replicate n (⟨1, "1"⟩ : FlowEdge)) =
      (List.range n).map (fun i => i % 2 ^ 16) := by
  unfold termEdgeIds
  rw [enum_replicate, List.filterMap_map]
  rw [show ((fun q : Nat × FlowEdge =>
      if q.2.streamSinkId == 1 then some (q.1 % 2 ^ 16) else none) ∘
      (fun i : Nat => (i, (⟨1, "1"⟩ : FlowEdge)))) =
    (some ∘ (fun i : Nat => i % 2 ^ 16)) from rfl]
  rw [List.filterMap_eq_map]

theorem claimTerminalIndices_replicate (n : Nat) :
    claimTerminalIndices (List.replicate n (⟨1, "1"⟩ : FlowEdge)) = List.range n := by
  unfold claimTerminalIndices
  rw [enum_replicate, List.filterMap_map]
  rw [show ((fun q : Nat × FlowEdge =>
      if q.2.streamSinkId == 1 then some q.1 else none) ∘
      (fun i : Nat => (i, (⟨1, "1"⟩ : FlowEdge)))) =
    (some ∘ (fun i : Nat => i)) from rfl]
  rw [List.filterMap_eq_map, List.map_id']

theorem terminalAmountSum_replicate_one (n : Nat) (h : n < 2 ^ 256) :
    terminalAmountSum (List.replicate n (⟨1, "1"⟩ : FlowEdge)) = some n := by
  unfold terminalAmountSum
  rw [List.filter_eq_self.mpr (fun a ha => by rw [List.eq_of_mem_replicate ha]; rfl)]
  rw [List.map_replicate,
    show u256FromStrRadix? (FlowEdge.amount ⟨1, "1"⟩) 10 = some 1 from by decide]
  rw [if_pos (List.all_eq_true.mpr (fun x hx => by rw [List.eq_of_mem_replicate hx]; rfl))]
  rw [List.map_replicate, Option.getD_some, List.sum_replicate, smul_eq_mul, Nat.mul_one,
    Nat.mod_eq_of_lt h]

/-- One hop from `"0x1"` to the sink `"0x2"` carrying amount 1, used
65537 times to overflow the 16-bit edge identifiers. -/
def cexStep : TransferStep := ⟨"0x1", "0x2", "0x1", "1"⟩

/-- 65537 copies of `cexStep`: more edges than a `u16` can index. -/
def cexTransfers : List TransferStep := List.replicate 65537 cexStep

theorem cex_distinct :
    distinctVertices (lowerStr "0x1") (lowerStr "0x2") cexTransfers = ["0x1", "0x2"] := by
  unfold distinctVertices vertexKeys
  rw [List.foldl_append]
  have hbase : ([lowerStr (lowerStr "0x1"), lowerStr (lowerStr "0x2")].foldl
      insertVertex []) = ["0x1", "0x2"] := by decide
  rw [hbase]
  apply foldl_insertVertex_of_subset
  intro x hx
  obtain ⟨t, ht, hxin⟩ := List.mem_flatMap.mp hx
  obtain rfl : t = cexStep := List.eq_of_mem_replicate ht
  simp only [List.mem_cons, List.not_mem_nil, or_false] at hxin
  rcases hxin with rfl | rfl | rfl <;> decide

theorem cex_transform :
    transformToFlowVertices cexTransfers (lowerStr "0x1") (lowerStr "0x2") =
      some (["0x1", "0x2"], mkIdx ["0x1", "0x2"]) := by
  unfold transformToFlowVertices
  rw [cex_distinct]
  decide

theorem cex_edges :
    flowEdgesStage (lowerStr "0x2") cexTransfers =
      some (List.replicate 65537 (⟨1, "1"⟩ : FlowEdge)) := by
  have hinit : initialEdges (lowerStr "0x2") cexTransfers =
      List.replicate 65537 (⟨1, "1"⟩ : FlowEdge) := by
    unfold initialEdges cexTransfers
    rw [List.map_replicate]
    exact congrArg (List.replicate 65537) (by decide)
  unfold flowEdgesStage
  rw [hinit]
  unfold ensureTerminal
  have hterm : (List.replicate 65537 (⟨1, "1"⟩ : FlowEdge)).any
      (fun e => e.streamSinkId == 1) = true := by
    rw [List.replicate_succ, List.any_cons]
    rfl
  rw [if_pos hterm]

theorem cex_coords :
    coordsOf (mkIdx ["0x1", "0x2"]) cexTransfers =
      some (cexTransfers.flatMap (fun s =>
        [(["0x1", "0x2"] : List String).indexOf (lowerStr s.tokenOwner) % 2 ^ 16,
         (["0x1", "0x2"] : List String).indexOf (lowerStr s.fromAddr) % 2 ^ 16,
         (["0x1", "0x2"] : List String).indexOf (lowerStr s.toAddr) % 2 ^ 16])) := by
  apply coordsOf_mkIdx_eq
  intro t ht
  obtain rfl : t = cexStep := List.eq_of_mem_replicate ht
  refine ⟨by decide, by decide, by decide⟩

theorem createFlowMatrix_eq_ok {f t v : String} {ts : List TransferStep}
    {sorted : List String} {idx : List (String × Nat)} {edges : List FlowEdge}
    {srcCoord expected : Nat} {coords : List Nat}
    (h1 : transformToFlowVertices ts (lowerStr f) (lowerStr t) = some (sorted, idx))
    (h2 : flowEdgesStage (lowerStr t) ts = some edges)
    (h3 : idxLookup idx (lowerStr f) = some srcCoord)
    (h4 : coordsOf idx ts = some coords)
    (h5 : u256FromStrRadix? v 10 = some expected)
    (h6 : terminalAmountSum edges = some expected) :
    createFlowMatrix f t v ts =
      .ok ⟨sorted, edges, [⟨srcCoord, termEdgeIds edges, []⟩],
        packCoordinates coords, srcCoord⟩ := by
  simp only [createFlowMatrix]
  rw [h1]
  dsimp only
  rw [h2]
  dsimp only
  rw [h3]
  dsimp only
  rw [h4]
  dsimp only
  rw [h5]
  dsimp only
  rw [h6]
  dsimp only
  rw [if_neg (fun hh : expected ≠ expected => hh rfl)]

theorem cex_run :
    createFlowMatrix "0x1" "0x2" "65537" cexTransfers =
      .ok ⟨["0x1", "0x2"], List.replicate 65537 (⟨1, "1"⟩ : FlowEdge),
        [⟨0, termEdgeIds (List.replicate 65537 (⟨1, "1"⟩ : FlowEdge)), []⟩],
        packCoordinates (cexTransfers.flatMap (fun s =>
          [(["0x1", "0x2"] : List String).indexOf (lowerStr s.tokenOwner) % 2 ^ 16,
           (["0x1", "0x2"] : List String).indexOf (lowerStr s.fromAddr) % 2 ^ 16,
           (["0x1", "0x2"] : List String).indexOf (lowerStr s.toAddr) % 2 ^ 16])), 0⟩ :=
  createFlowMatrix_eq_ok cex_transform cex_edges (by decide) cex_coords
    (by decide) (terminalAmountSum_replicate_one 65537 (by decide))

/-- C8 counterexample: with 65537 transfers, all terminal,
`create_flow_matrix` succeeds, but the single stream's `flowEdgeIds` is
not the list of terminal-edge indices — the `as u16` cast wraps index
65536 to 0. -/
theorem claim8_counterexample :
    match createFlowMatrix "0x1" "0x2" "65537" cexTransfers with
    | .ok m => m.streams.map Stream.flowEdgeIds ≠ [claimTerminalIndices m.flowEdges]
    | .error _ => False
    | .panicked => False := by
  rw [cex_run]
  show [termEdgeIds (List.replicate 65537 (⟨1, "1"⟩ : FlowEdge))] ≠
    [claimTerminalIndices (List.replicate 65537 (⟨1, "1"⟩ : FlowEdge))]
  rw [termEdgeIds_replicate, claimTerminalIndices_replicate]
  intro hfalse
  have hlists : (List.range 65537).map (fun i => i % 2 ^ 16) = List.range 65537 :=
    List.cons.inj hfalse |>.1
  have hL : (List.map (fun i => i % 2 ^ 16) (List.range 65537))[65536]? =
      (List.range 65537)[65536]? := by rw [hlists]
  rw [List.getElem?_map, List.getElem?_range (by omega)] at hL
  simp only [Option.map_some'] at hL
  have h2 := Option.some.inj hL
  rw [show (65536 : Nat) % 2 ^ 16 = 0 from by decide] at h2
  exact absurd h2 (by decide)

/-- C8 (amended): every successfully returned matrix unconditionally has
exactly one stream, whose data is empty and whose `sourceCoordinate`
equals the matrix's own field, which in turn is always the position of
the canonicalized source in `flowVertices` reduced `% 2 ^ 16` (the u16
cast); whenever the matrix has at most `2 ^ 16` vertices that is the
position itself, and whenever it has at most `2 ^ 16` edges the stream's
`flowEdgeIds` are, in ascending order, exactly the indices of the edges
with `streamSinkId = 1`. -/
theorem claim8_amended (f t v : String) (ts : List TransferStep) (m : FlowMatrix)
    (h : createFlowMatrix f t v ts = .ok m) :
    m.streams.length = 1 ∧
    (∀ st ∈ m.streams, st.data = [] ∧ st.sourceCoordinate = m.sourceCoordinate) ∧
    m.sourceCoordinate = m.flowVertices.indexOf (lowerStr f) % 2 ^ 16 ∧
    (m.flowVertices.length ≤ 2 ^ 16 →
      m.sourceCoordinate = m.flowVertices.indexOf (lowerStr f)) ∧
    (m.flowEdges.length ≤ 2 ^ 16 →
      ∀ st ∈ m.streams, st.flowEdgeIds = claimTerminalIndices m.flowEdges) ∧
    List.Pairwise (fun a b => a < b) (claimTerminalIndices m.flowEdges) := by
  obtain ⟨sorted, idx, edges, srcCoord, coords, expected, h1, h2, h3, h4, h5, h6, hmeq⟩ :=
    createFlowMatrix_ok_elim h
  have hEdges : m.flowEdges = edges := by rw [hmeq]
  have hVerts : m.flowVertices = sorted := by rw [hmeq]
  have hStreams : m.streams = [⟨srcCoord, termEdgeIds edges, []⟩] := by rw [hmeq]
  have hSrc : m.sourceCoordinate = srcCoord := by rw [hmeq]
  have hsender := sender_lookup_some h1
  rw [h3] at hsender
  have hsc : srcCoord = sorted.indexOf (lowerStr f) % 2 ^ 16 := Option.some.inj hsender
  have hmemf : lowerStr f ∈ sorted := by
    obtain ⟨-, -, hmem, -⟩ := flowVertices_facts h1
    rw [hmem]
    have := sender_mem_vertexKeys (lowerStr f) (lowerStr t) ts
    rwa [lowerStr_idem] at this
  refine ⟨?_, ?_, ?_, ?_, ?_, ?_⟩
  · rw [hStreams]
    rfl
  · intro st hst
    rw [hStreams] at hst
    simp only [List.mem_cons, List.not_mem_nil, or_false] at hst
    subst hst
    exact ⟨rfl, by rw [hSrc]⟩
  · rw [hSrc, hVerts, hsc]
  · intro hV
    rw [hVerts] at hV
    have hidxlt : sorted.indexOf (lowerStr f) < 2 ^ 16 :=
      Nat.lt_of_lt_of_le (List.indexOf_lt_length.mpr hmemf) hV
    rw [hSrc, hVerts, hsc, Nat.mod_eq_of_lt hidxlt]
  · intro hE st hst
    rw [hEdges] at hE
    rw [hStreams] at hst
    simp only [List.mem_cons, List.not_mem_nil, or_false] at hst
    subst hst
    rw [hEdges]
    exact termEdgeIds_eq_claim hE
  · rw [hEdges]
    exact pairwise_claimTerminalIndices edges

/-- Witness for C8 (amended) at a concrete successful input. -/
theorem claim8_amended_witness :
    ([⟨0, [0], []⟩] : List Stream).length = 1 ∧
    (∀ st ∈ ([⟨0, [0], []⟩] : List Stream), st.data = [] ∧ st.sourceCoordinate = (0 : Nat)) ∧
    (0 : Nat) = (["0x1", "0x2"] : List String).indexOf (lowerStr "0x1") % 2 ^ 16 ∧
    ((["0x1", "0x2"] : List String).length ≤ 2 ^ 16 →
      (0 : Nat) = (["0x1", "0x2"] : List String).indexOf (lowerStr "0x1")) ∧
    (([⟨1, "5"⟩] : List FlowEdge).length ≤ 2 ^ 16 →
      ∀ st ∈ ([⟨0, [0], []⟩] : List Stream), st.flowEdgeIds = claimTerminalIndices [⟨1, "5"⟩]) ∧
    List.Pairwise (fun a b => a < b) (claimTerminalIndices [⟨1, "5"⟩]) :=
  claim8_amended "0x1" "0x2" "5" [⟨"0x1", "0x2", "0x1", "5"⟩]
    ⟨["0x1", "0x2"], [⟨1, "5"⟩], [⟨0, [0], []⟩], "0x000000000001", 0⟩ (by decide)

end RedeemRs
